import Mathlib

/-!
Shallow embedding of the knowledge-graph MCP server
(`src/mcp/knowledge-graph/server.py`) and verification of its
natural-language specification.

The server keeps one in-process mutable value
`knowledge_graph = {"entities": {}, "relations": []}` and dispatches five
tools through `call_tool`.  We embed that state as `KnowledgeGraph P`
(the property bags are opaque to the code, hence a type parameter `P`),
and `call_tool` as the pure transition function `callTool`:
given a state, a timestamp (for `datetime.now()`) and a parsed argument
bag, it returns the next state and the response.  Python's insertion-order
dict is embedded as an association list with in-place overwrite
(`upsert`), matching dict update semantics; the unordered `set` used by
the BFS is embedded as a `Finset`.  Argument defaulting
(`arguments.get("properties", {})` and friends) happens before the calls
we model, so every `ToolCall` carries its arguments explicitly.
-/

set_option maxHeartbeats 1000000

namespace KG

variable {P : Type}

/-- Python `str.lower` (per-character lowering). -/
def strLower (s : String) : String := ⟨s.data.map Char.toLower⟩

/-- `listLeads n h` holds when `n` is an initial segment of `h`. -/
def listLeads : List Char → List Char → Bool
  | [], _ => true
  | _ :: _, [] => false
  | a :: as, b :: bs => a == b && listLeads as bs

/-- Python's substring test `needle in haystack`, on character lists. -/
def listHasSub (needle : List Char) : List Char → Bool
  | [] => needle.isEmpty
  | b :: bs => listLeads needle (b :: bs) || listHasSub needle bs

/-- Python's substring test on strings. -/
def strHasSub (needle haystack : String) : Bool :=
  listHasSub needle.data haystack.data

/-- The value stored at `knowledge_graph["entities"][entity_id]`. -/
structure EntityData (P : Type) where
  type : String
  properties : P
  created_at : Nat
  deriving Repr, DecidableEq

/-- An element of the `knowledge_graph["relations"]` list.  The source
field `from` is a Lean keyword, embedded here as `frm`. -/
structure RelationData (P : Type) where
  frm : String
  relation : String
  toE : String
  properties : P
  created_at : Nat
  deriving Repr, DecidableEq

/-- The whole mutable server state `knowledge_graph`.  The `entities`
dict is an insertion-ordered association list with unique keys. -/
structure KnowledgeGraph (P : Type) where
  entities : List (String × EntityData P)
  relations : List (RelationData P)
  deriving Repr, DecidableEq

/-- The initial state `{"entities": {}, "relations": []}`. -/
def emptyGraph : KnowledgeGraph P := ⟨[], []⟩

/-- Dict lookup `knowledge_graph["entities"].get(k)`. -/
def lookupEnt (k : String) : List (String × EntityData P) → Option (EntityData P)
  | [] => none
  | (k2, v) :: rest => if k2 = k then some v else lookupEnt k rest

/-- Dict assignment `knowledge_graph["entities"][k] = v`: overwrites in
place when the key exists (keeping its position, as a Python dict does),
otherwise appends. -/
def upsert (k : String) (v : EntityData P) :
    List (String × EntityData P) → List (String × EntityData P)
  | [] => [(k, v)]
  | (k2, v2) :: rest =>
    if k2 = k then (k, v) :: rest else (k2, v2) :: upsert k v rest

/-- One element of the `results` list built by the `kg_query` branch. -/
inductive QueryResult (P : Type) where
  | entityHit (id : String) (type : String) (properties : P)
  | relationHit (frm : String) (relation : String) (toE : String)
  deriving Repr, DecidableEq

/-- The object serialized by the `kg_stats` branch.  The histograms are
insertion-ordered dicts, embedded as association lists. -/
structure Stats where
  entities_count : Nat
  relations_count : Nat
  entity_types : List (String × Nat)
  relation_types : List (String × Nat)
  deriving Repr, DecidableEq

/-- The response of one `call_tool` invocation, structured: the source
returns formatted strings, whose shapes are exactly these cases (the
`Error: Entity ... not found` strings are `entityNotFound`). -/
inductive ToolResult (P : Type) where
  | entityNotFound (missing : String)
  | addedEntity (id : String) (type : String)
  | addedRelation (frm : String) (relation : String) (toE : String)
  | queryResults (query : String) (results : List (QueryResult P))
  | neighborsResult (entity : String) (depth : Int) (neighbors : Finset (String × String))
  | statsResult (s : Stats)
  deriving DecidableEq

/-- True exactly on the `Error: ...` responses of the source. -/
def ToolResult.isError : ToolResult P → Bool
  | .entityNotFound _ => true
  | _ => false

/-- A parsed argument bag for one of the five tools, after the
`arguments.get(..., default)` defaulting done by the source. -/
inductive ToolCall (P : Type) where
  | addEntity (entity : String) (type : String) (properties : P)
  | addRelation (from_entity : String) (relation : String) (to_entity : String) (properties : P)
  | query (query : String) (query_type : String) (limit : Int)
  | getNeighbors (entity : String) (depth : Int)
  | stats
  deriving Repr, DecidableEq

/-- The entity-match test of the `kg_query` loop:
`query in entity_id.lower() or query in entity_data["type"].lower()`
(the query itself is already lowered by the caller). -/
def entityMatches (ql : String) (id : String) (d : EntityData P) : Bool :=
  strHasSub ql (strLower id) || strHasSub ql (strLower d.type)

/-- The `kg_query` entity loop: append each match, then break as soon as
`len(results) >= limit` (so the length test runs only after appending). -/
def collectEntityHits (ql : String) (limit : Int) :
    List (String × EntityData P) → List (QueryResult P) → List (QueryResult P)
  | [], acc => acc
  | (id, d) :: rest, acc =>
    if entityMatches ql id d then
      let acc2 := acc ++ [QueryResult.entityHit id d.type d.properties]
      if limit ≤ (acc2.length : Int) then acc2
      else collectEntityHits ql limit rest acc2
    else collectEntityHits ql limit rest acc

/-- The `kg_query` relation loop, same break placement. -/
def collectRelationHits (ql : String) (limit : Int) :
    List (RelationData P) → List (QueryResult P) → List (QueryResult P)
  | [], acc => acc
  | r :: rest, acc =>
    if strHasSub ql (strLower r.relation) then
      let acc2 := acc ++ [QueryResult.relationHit r.frm r.relation r.toE]
      if limit ≤ (acc2.length : Int) then acc2
      else collectRelationHits ql limit rest acc2
    else collectRelationHits ql limit rest acc

/-- The whole `kg_query` branch: lower the query, pick the loop by
`query_type`; any other `query_type` (including `path`) falls through
with `results = []`. -/
def kgQuery (st : KnowledgeGraph P) (q : String) (query_type : String)
    (limit : Int) : List (QueryResult P) :=
  let ql := strLower q
  if query_type = "entity" then collectEntityHits ql limit st.entities []
  else if query_type = "relation" then collectRelationHits ql limit st.relations []
  else []

/-- One scan of the relation log inside the BFS round of
`kg_get_neighbors`: every endpoint adjacent (in either direction) to the
current frontier. -/
def levelExpand (cur : Finset String) : List (RelationData P) → Finset String
  | [] => ∅
  | r :: rest =>
    (if r.frm ∈ cur then {r.toE} else ∅) ∪
      (if r.toE ∈ cur then {r.frm} else ∅) ∪ levelExpand cur rest

/-- The `for _ in range(depth)` BFS loop: each round scans the log once,
adding the expansion of the frontier both to the accumulated `neighbors`
set and as the next frontier. -/
def bfsLoop (rels : List (RelationData P)) :
    Nat → Finset String → Finset String → Finset String
  | 0, _, visited => visited
  | k + 1, cur, visited =>
    let nl := levelExpand cur rels
    bfsLoop rels k nl (visited ∪ nl)

/-- `knowledge_graph["entities"][n]["type"]`, defaulting when absent
(the source only reads it after membership has been checked). -/
def typeOfId (st : KnowledgeGraph P) (n : String) : String :=
  match lookupEnt n st.entities with
  | some d => d.type
  | none => ""

/-- The `neighbor_data` of the `kg_get_neighbors` branch, as the set of
`(id, type)` pairs (the source iterates a Python `set`, so its order is
not specified): run `depth` BFS rounds — `range` of a negative number is
empty, hence `Int.toNat` — discard the start entity, drop ids that do not
resolve in the entity dict, pair the rest with their stored types. -/
def kgNeighborsSet (st : KnowledgeGraph P) (e : String) (depth : Int) :
    Finset (String × String) :=
  let visited := bfsLoop st.relations depth.toNat {e} ∅
  let visited2 := visited.erase e
  (visited2.filter (fun n => (lookupEnt n st.entities).isSome)).image
    (fun n => (n, typeOfId st n))

/-- `stats["entity_types"][k] = stats["entity_types"].get(k, 0) + 1` on an
insertion-ordered dict. -/
def histInc (k : String) : List (String × Nat) → List (String × Nat)
  | [] => [(k, 1)]
  | (k2, n) :: rest =>
    if k2 = k then (k2, n + 1) :: rest else (k2, n) :: histInc k rest

/-- Histogram dict lookup with default 0. -/
def histLookup (k : String) : List (String × Nat) → Nat
  | [] => 0
  | (k2, n) :: rest => if k2 = k then n else histLookup k rest

/-- The entity-type counting loop of `kg_stats`. -/
def entityTypesHist (es : List (String × EntityData P)) : List (String × Nat) :=
  es.foldl (fun h p => histInc p.2.type h) []

/-- The relation-type counting loop of `kg_stats`. -/
def relationTypesHist (rs : List (RelationData P)) : List (String × Nat) :=
  rs.foldl (fun h r => histInc r.relation h) []

/-- The whole `kg_stats` branch. -/
def statsOf (st : KnowledgeGraph P) : Stats :=
  ⟨st.entities.length, st.relations.length,
    entityTypesHist st.entities, relationTypesHist st.relations⟩

/-- The `call_tool` dispatcher as a pure transition: next state and
response.  Each branch is a line-by-line transcription of the source. -/
def callTool (st : KnowledgeGraph P) (now : Nat) (c : ToolCall P) :
    KnowledgeGraph P × ToolResult P :=
  match c with
  | .addEntity e t p =>
    let data : EntityData P := ⟨t, p, now⟩
    ({ st with entities := upsert e data st.entities }, .addedEntity e t)
  | .addRelation f r t p =>
    if (lookupEnt f st.entities).isNone then (st, .entityNotFound f)
    else if (lookupEnt t st.entities).isNone then (st, .entityNotFound t)
    else ({ st with relations := st.relations ++ [⟨f, r, t, p, now⟩] },
      .addedRelation f r t)
  | .query q qt limit => (st, .queryResults q (kgQuery st q qt limit))
  | .getNeighbors e depth =>
    if (lookupEnt e st.entities).isNone then (st, .entityNotFound e)
    else (st, .neighborsResult e depth (kgNeighborsSet st e depth))
  | .stats => (st, .statsResult (statsOf st))

/-- Run a sequence of tool calls (each with its timestamp) from a state,
keeping only the final state. -/
def applyCalls (st : KnowledgeGraph P) : List (Nat × ToolCall P) → KnowledgeGraph P
  | [] => st
  | (now, c) :: rest => applyCalls (callTool st now c).1 rest

/-- How many calls of a trace answered `addedRelation` — the successful
`kg_add_relation` calls. -/
def countSucc (st : KnowledgeGraph P) : List (Nat × ToolCall P) → Nat
  | [] => 0
  | (now, c) :: rest =>
    let out := callTool st now c
    (match out.2 with | ToolResult.addedRelation _ _ _ => 1 | _ => 0) +
      countSucc out.1 rest

/-- The set of entity ids ever passed to `kg_add_entity` in a trace. -/
def addedIds : List (Nat × ToolCall P) → Finset String
  | [] => ∅
  | (_, ToolCall.addEntity e _ _) :: rest => insert e (addedIds rest)
  | _ :: rest => addedIds rest

/-- The set of keys of the entity dict. -/
def keyset (es : List (String × EntityData P)) : Finset String :=
  (es.map Prod.fst).toFinset

/-- Referential closure: every stored relation's endpoints resolve in the
entity dict. -/
def Closed (st : KnowledgeGraph P) : Prop :=
  ∀ r ∈ st.relations,
    (lookupEnt r.frm st.entities).isSome ∧ (lookupEnt r.toE st.entities).isSome

/-- Spec-side undirected adjacency: some stored relation links `e` and
`d` in one direction or the other. -/
def adjacent (st : KnowledgeGraph P) (e d : String) : Prop :=
  ∃ r ∈ st.relations, (r.frm = e ∧ r.toE = d) ∨ (r.frm = d ∧ r.toE = e)

instance (st : KnowledgeGraph P) : Decidable (Closed st) :=
  inferInstanceAs (Decidable (∀ r ∈ st.relations, _ ∧ _))

/-! ### Concrete states used by the witnesses -/

/-- A concrete two-entity state with no relations. -/
def exState : KnowledgeGraph Nat :=
  ⟨[("a", ⟨"person", 7, 0⟩), ("b", ⟨"concept", 8, 1⟩)], []⟩

/-- A concrete state with two entities and one relation `a --knows--> b`. -/
def exState2 : KnowledgeGraph Nat :=
  ⟨[("a", ⟨"person", 7, 0⟩), ("b", ⟨"concept", 8, 1⟩)], [⟨"a", "knows", "b", 9, 2⟩]⟩

/-! ### Association-list lemmas for the entity dict -/

theorem lookupEnt_upsert_self (e : String) (v : EntityData P)
    (es : List (String × EntityData P)) :
    lookupEnt e (upsert e v es) = some v := by
  induction es with
  | nil => simp [upsert, lookupEnt]
  | cons hd tl ih =>
    obtain ⟨k2, v2⟩ := hd
    by_cases h : k2 = e
    · simp [upsert, lookupEnt, h]
    · simp [upsert, lookupEnt, h, ih]

theorem lookupEnt_upsert_ne (e e2 : String) (v : EntityData P)
    (es : List (String × EntityData P)) (h : e2 ≠ e) :
    lookupEnt e2 (upsert e v es) = lookupEnt e2 es := by
  have h2 : e ≠ e2 := Ne.symm h
  induction es with
  | nil => simp [upsert, lookupEnt, h2]
  | cons hd tl ih =>
    obtain ⟨k2, v2⟩ := hd
    by_cases hk : k2 = e
    · subst hk
      simp [upsert, lookupEnt, h2]
    · simp [upsert, lookupEnt, hk, ih]

theorem isSome_lookupEnt_upsert (e k : String) (v : EntityData P)
    (es : List (String × EntityData P)) (h : (lookupEnt k es).isSome) :
    (lookupEnt k (upsert e v es)).isSome := by
  by_cases hk : k = e
  · subst hk; simp [lookupEnt_upsert_self]
  · rwa [lookupEnt_upsert_ne e k v es hk]

theorem mem_keyset_iff (k : String) (es : List (String × EntityData P)) :
    k ∈ keyset es ↔ (lookupEnt k es).isSome := by
  induction es with
  | nil => simp [keyset, lookupEnt]
  | cons hd tl ih =>
    obtain ⟨k2, v2⟩ := hd
    by_cases h : k2 = k
    · simp [keyset, lookupEnt, h]
    · have h2 : k ≠ k2 := Ne.symm h
      simp only [keyset, List.map_cons, List.toFinset_cons, Finset.mem_insert,
        lookupEnt, if_neg h]
      rw [← keyset]
      simp [ih, h2]

theorem keyset_upsert (e : String) (v : EntityData P)
    (es : List (String × EntityData P)) :
    keyset (upsert e v es) = insert e (keyset es) := by
  induction es with
  | nil => simp [keyset, upsert]
  | cons hd tl ih =>
    obtain ⟨k2, v2⟩ := hd
    by_cases h : k2 = e
    · subst h
      simp [keyset, upsert, List.toFinset_cons]
    · simp only [upsert, if_neg h, keyset, List.map_cons, List.toFinset_cons]
      rw [← keyset, ← keyset, ih]
      exact (Finset.Insert.comm e k2 (keyset tl)).symm

theorem mem_keys_upsert (a e : String) (v : EntityData P)
    (es : List (String × EntityData P)) :
    a ∈ (upsert e v es).map Prod.fst ↔ a = e ∨ a ∈ es.map Prod.fst := by
  induction es with
  | nil => simp [upsert]
  | cons hd tl ih =>
    obtain ⟨k2, v2⟩ := hd
    by_cases hk : k2 = e
    · subst hk
      simp only [upsert, eq_self_iff_true, if_true, List.map_cons, List.mem_cons]
      tauto
    · simp only [upsert, if_neg hk, List.map_cons, List.mem_cons, ih]
      tauto

theorem nodup_keys_upsert (e : String) (v : EntityData P)
    (es : List (String × EntityData P))
    (h : (es.map Prod.fst).Nodup) : ((upsert e v es).map Prod.fst).Nodup := by
  induction es with
  | nil => simp [upsert]
  | cons hd tl ih =>
    obtain ⟨k2, v2⟩ := hd
    simp only [List.map_cons, List.nodup_cons] at h
    by_cases hk : k2 = e
    · subst hk
      simpa [upsert, List.nodup_cons] using h
    · simp only [upsert, if_neg hk, List.map_cons, List.nodup_cons]
      refine ⟨fun hc => ?_, ih h.2⟩
      rcases (mem_keys_upsert k2 e v tl).mp hc with h1 | h1
      · exact hk h1
      · exact h.1 h1


/-! ### BFS lemmas -/

theorem mem_ite_singleton (c : Prop) [Decidable c] (x n : String) :
    (n ∈ (if c then ({x} : Finset String) else ∅)) ↔ c ∧ n = x := by
  split_ifs with h <;> simp [h]

theorem mem_levelExpand (n : String) (cur : Finset String)
    (rels : List (RelationData P)) :
    n ∈ levelExpand cur rels ↔
      ∃ r ∈ rels, (r.frm ∈ cur ∧ n = r.toE) ∨ (r.toE ∈ cur ∧ n = r.frm) := by
  induction rels with
  | nil => simp [levelExpand]
  | cons r rest ih =>
    simp only [levelExpand, Finset.mem_union, mem_ite_singleton, List.mem_cons, ih]
    constructor
    · rintro ((⟨hc, hn⟩ | ⟨hc, hn⟩) | ⟨r2, hr2, hor⟩)
      · exact ⟨r, Or.inl rfl, Or.inl ⟨hc, hn⟩⟩
      · exact ⟨r, Or.inl rfl, Or.inr ⟨hc, hn⟩⟩
      · exact ⟨r2, Or.inr hr2, hor⟩
    · rintro ⟨r2, (rfl | hr2), hor⟩
      · exact Or.inl (by tauto)
      · exact Or.inr ⟨r2, hr2, hor⟩

theorem bfsLoop_subset_succ (rels : List (RelationData P)) (k : Nat) :
    ∀ cur visited, bfsLoop rels k cur visited ⊆ bfsLoop rels (k + 1) cur visited := by
  induction k with
  | zero =>
    intro cur visited
    simp only [bfsLoop]
    exact Finset.subset_union_left
  | succ k ih =>
    intro cur visited
    simp only [bfsLoop]
    exact ih _ _

theorem mem_bfsLoop_endpoint (rels : List (RelationData P)) (k : Nat) :
    ∀ cur visited n, n ∈ bfsLoop rels k cur visited →
      n ∈ visited ∨ ∃ r ∈ rels, n = r.frm ∨ n = r.toE := by
  induction k with
  | zero =>
    intro cur visited n h
    simp only [bfsLoop] at h
    exact Or.inl h
  | succ k ih =>
    intro cur visited n h
    simp only [bfsLoop] at h
    rcases ih _ _ n h with h2 | h2
    · rcases Finset.mem_union.mp h2 with h3 | h3
      · exact Or.inl h3
      · right
        rcases (mem_levelExpand n cur rels).mp h3 with ⟨r, hr, hor⟩
        rcases hor with ⟨_, rfl⟩ | ⟨_, rfl⟩
        · exact ⟨r, hr, Or.inr rfl⟩
        · exact ⟨r, hr, Or.inl rfl⟩
    · exact Or.inr h2

/-! ### Frame lemmas for `callTool` -/

theorem callTool_query_state (st : KnowledgeGraph P) (now : Nat)
    (q qt : String) (limit : Int) :
    (callTool st now (ToolCall.query q qt limit)).1 = st := rfl

theorem callTool_stats_state (st : KnowledgeGraph P) (now : Nat) :
    (callTool st now ToolCall.stats).1 = st := rfl

theorem callTool_neighbors_state (st : KnowledgeGraph P) (now : Nat)
    (e : String) (d : Int) :
    (callTool st now (ToolCall.getNeighbors e d)).1 = st := by
  simp only [callTool]
  split <;> rfl

theorem callTool_addRelation_entities (st : KnowledgeGraph P) (now : Nat)
    (f r t : String) (p : P) :
    (callTool st now (ToolCall.addRelation f r t p)).1.entities = st.entities := by
  simp only [callTool]
  split_ifs <;> rfl

theorem relations_length_callTool (st : KnowledgeGraph P) (now : Nat) (c : ToolCall P) :
    (callTool st now c).1.relations.length =
      st.relations.length +
        (match (callTool st now c).2 with
          | ToolResult.addedRelation _ _ _ => 1 | _ => 0) := by
  cases c with
  | addEntity e t p => rfl
  | addRelation f r t p =>
    simp only [callTool]
    split_ifs with h1 h2 <;> simp
  | query q qt l => rfl
  | getNeighbors e d =>
    simp only [callTool]
    split_ifs <;> rfl
  | stats => rfl

/-! ### Histogram lemmas for `kg_stats` -/

theorem histLookup_histInc (t k : String) (h : List (String × Nat)) :
    histLookup t (histInc k h) = histLookup t h + (if k = t then 1 else 0) := by
  induction h with
  | nil =>
    simp only [histInc, histLookup]
    split_ifs with h1 <;> simp
  | cons hd tl ih =>
    obtain ⟨k2, n⟩ := hd
    by_cases h1 : k2 = k
    · subst h1
      by_cases h2 : k2 = t
      · subst h2
        simp [histInc, histLookup]
      · simp [histInc, histLookup, h2]
    · by_cases h2 : k2 = t
      · subst h2
        have h3 : ¬ k = k2 := fun hh => h1 hh.symm
        simp [histInc, histLookup, h1, h3]
      · simp [histInc, histLookup, h1, h2, ih]

theorem histLookup_foldl (t : String) (keys : List String) :
    ∀ h0, histLookup t (keys.foldl (fun h k => histInc k h) h0) =
      histLookup t h0 + keys.countP (fun k => k == t) := by
  induction keys with
  | nil => intro h0; simp
  | cons k tl ih =>
    intro h0
    simp only [List.foldl_cons, List.countP_cons, ih, histLookup_histInc]
    by_cases h : k = t
    · simp [h]
      omega
    · simp [h]

theorem histLookup_entityTypesHist (t : String)
    (es : List (String × EntityData P)) :
    histLookup t (entityTypesHist es) =
      es.countP (fun p => p.2.type == t) := by
  have h1 : entityTypesHist es =
      (es.map (fun p => p.2.type)).foldl (fun h k => histInc k h) [] := by
    rw [List.foldl_map]
    rfl
  rw [h1, histLookup_foldl, List.countP_map]
  simp only [histLookup, Nat.zero_add]
  rfl

theorem histLookup_relationTypesHist (l : String)
    (rs : List (RelationData P)) :
    histLookup l (relationTypesHist rs) =
      rs.countP (fun r => r.relation == l) := by
  have h1 : relationTypesHist rs =
      (rs.map (fun r => r.relation)).foldl (fun h k => histInc k h) [] := by
    rw [List.foldl_map]
    rfl
  rw [h1, histLookup_foldl, List.countP_map]
  simp only [histLookup, Nat.zero_add]
  rfl

/-! ### Trace lemmas: states reachable from the empty graph -/

theorem keyset_applyCalls (calls : List (Nat × ToolCall P)) :
    ∀ st : KnowledgeGraph P,
      keyset (applyCalls st calls).entities = keyset st.entities ∪ addedIds calls := by
  induction calls with
  | nil => intro st; simp [applyCalls, addedIds]
  | cons hd rest ih =>
    obtain ⟨now, c⟩ := hd
    intro st
    cases c with
    | addEntity e t p =>
      simp only [applyCalls, addedIds]
      rw [ih]
      have h1 : keyset (callTool st now (ToolCall.addEntity e t p)).1.entities
          = insert e (keyset st.entities) := by
        simp [callTool, keyset_upsert]
      rw [h1, Finset.insert_union, Finset.union_insert]
    | addRelation f r t2 p =>
      simp only [applyCalls, addedIds]
      rw [ih, callTool_addRelation_entities]
    | query q qt l =>
      simp only [applyCalls, addedIds]
      rw [ih, callTool_query_state]
    | getNeighbors e d =>
      simp only [applyCalls, addedIds]
      rw [ih, callTool_neighbors_state]
    | stats =>
      simp only [applyCalls, addedIds]
      rw [ih, callTool_stats_state]

theorem nodup_keys_applyCalls (calls : List (Nat × ToolCall P)) :
    ∀ st : KnowledgeGraph P, (st.entities.map Prod.fst).Nodup →
      ((applyCalls st calls).entities.map Prod.fst).Nodup := by
  induction calls with
  | nil => intro st h; exact h
  | cons hd rest ih =>
    obtain ⟨now, c⟩ := hd
    intro st h
    apply ih
    cases c with
    | addEntity e t p => exact nodup_keys_upsert e _ st.entities h
    | addRelation f r t2 p => rw [callTool_addRelation_entities]; exact h
    | query q qt l => rw [callTool_query_state]; exact h
    | getNeighbors e d => rw [callTool_neighbors_state]; exact h
    | stats => rw [callTool_stats_state]; exact h

theorem relations_length_applyCalls (calls : List (Nat × ToolCall P)) :
    ∀ st : KnowledgeGraph P,
      (applyCalls st calls).relations.length =
        st.relations.length + countSucc st calls := by
  induction calls with
  | nil => intro st; simp [applyCalls, countSucc]
  | cons hd rest ih =>
    obtain ⟨now, c⟩ := hd
    intro st
    simp only [applyCalls, countSucc]
    rw [ih, relations_length_callTool]
    omega

/-! ### The referential-closure invariant -/

theorem closed_emptyGraph : Closed (emptyGraph : KnowledgeGraph P) := by
  intro r hr
  simp [emptyGraph] at hr

theorem closed_callTool (st : KnowledgeGraph P) (now : Nat) (c : ToolCall P)
    (h : Closed st) : Closed (callTool st now c).1 := by
  cases c with
  | addEntity e t p =>
    intro r hr
    have h2 := h r hr
    exact ⟨isSome_lookupEnt_upsert e _ _ _ h2.1, isSome_lookupEnt_upsert e _ _ _ h2.2⟩
  | addRelation f rl t2 p =>
    simp only [callTool]
    split_ifs with h1 h2
    · exact h
    · exact h
    · intro r hr
      rcases List.mem_append.mp hr with h3 | h3
      · exact h r h3
      · have h4 : r = ⟨f, rl, t2, p, now⟩ := by simpa using h3
        subst h4
        constructor
        · cases hopt : lookupEnt f st.entities <;> simp [hopt] at h1 ⊢
        · cases hopt : lookupEnt t2 st.entities <;> simp [hopt] at h2 ⊢
  | query q qt l => exact h
  | getNeighbors e d =>
    rw [callTool_neighbors_state]
    exact h
  | stats => exact h

theorem closed_applyCalls (calls : List (Nat × ToolCall P)) :
    ∀ st : KnowledgeGraph P, Closed st → Closed (applyCalls st calls) := by
  induction calls with
  | nil => intro st h; exact h
  | cons hd rest ih =>
    obtain ⟨now, c⟩ := hd
    intro st h
    exact ih _ (closed_callTool st now c h)
/-! ### The claims -/

/-- C2: `kg_add_entity(e, t, p)` always succeeds; afterwards the stored
record for `e` is exactly `(t, p)` with the call's timestamp (wholesale
replacement — nothing of a previous record survives), the key set of the
entity dict becomes `insert e` of the old key set (so it gains at most
the single id `e`), and every other id's record is untouched. -/
theorem claim2_add_entity_upserts (st : KnowledgeGraph P) (now : Nat)
    (e t : String) (p : P) :
    (callTool st now (ToolCall.addEntity e t p)).2 = ToolResult.addedEntity e t ∧
    lookupEnt e (callTool st now (ToolCall.addEntity e t p)).1.entities =
      some ⟨t, p, now⟩ ∧
    keyset (callTool st now (ToolCall.addEntity e t p)).1.entities =
      insert e (keyset st.entities) ∧
    ∀ e2, e2 ≠ e →
      lookupEnt e2 (callTool st now (ToolCall.addEntity e t p)).1.entities =
        lookupEnt e2 st.entities := by
  refine ⟨rfl, ?_, ?_, ?_⟩
  · exact lookupEnt_upsert_self e _ st.entities
  · exact keyset_upsert e _ st.entities
  · intro e2 h
    exact lookupEnt_upsert_ne e e2 _ st.entities h

/-- Witness for C2 at a concrete re-add: `a` already exists in `exState`
with type `person` and properties `7`; re-adding it with `(robot, 42)`
replaces the record wholly and leaves `b` untouched. -/
theorem claim2_witness :
    lookupEnt "a" (callTool exState 3 (ToolCall.addEntity "a" "robot" 42)).1.entities =
      some ⟨"robot", 42, 3⟩ ∧
    lookupEnt "b" (callTool exState 3 (ToolCall.addEntity "a" "robot" 42)).1.entities =
      lookupEnt "b" exState.entities :=
  ⟨(claim2_add_entity_upserts exState 3 "a" "robot" 42).2.1,
   (claim2_add_entity_upserts exState 3 "a" "robot" 42).2.2.2 "b" (by decide)⟩

/-- C1: when at least one endpoint of `kg_add_relation` is not a key of
the entity dict, the call answers the `EntityNotFound` error naming a
missing endpoint, and the state — in particular the relation count — is
completely unchanged. -/
theorem claim1_add_relation_missing_endpoint (st : KnowledgeGraph P) (now : Nat)
    (f r t : String) (p : P)
    (h : lookupEnt f st.entities = none ∨ lookupEnt t st.entities = none) :
    (callTool st now (ToolCall.addRelation f r t p)).1 = st ∧
    (∃ m, (callTool st now (ToolCall.addRelation f r t p)).2 =
        ToolResult.entityNotFound m ∧
      lookupEnt m st.entities = none ∧ (m = f ∨ m = t)) ∧
    (callTool st now (ToolCall.addRelation f r t p)).1.relations.length =
      st.relations.length := by
  by_cases hf : lookupEnt f st.entities = none
  · refine ⟨by simp [callTool, hf], ⟨f, by simp [callTool, hf], hf, Or.inl rfl⟩,
      by simp [callTool, hf]⟩
  · have ht : lookupEnt t st.entities = none := h.resolve_left hf
    have hf2 : (lookupEnt f st.entities).isNone = false := by
      cases hopt : lookupEnt f st.entities
      · exact absurd hopt hf
      · rfl
    refine ⟨by simp [callTool, hf2, ht], ⟨t, by simp [callTool, hf2, ht], ht, Or.inr rfl⟩,
      by simp [callTool, hf2, ht]⟩

/-- Witness for C1: in `exState` the id `zz` is absent, so relating
`a` to `zz` fails and mutates nothing. -/
theorem claim1_witness :
    lookupEnt "zz" exState.entities = none ∧
    (callTool exState 5 (ToolCall.addRelation "a" "knows" "zz" 0)).1 = exState ∧
    (callTool exState 5 (ToolCall.addRelation "a" "knows" "zz" 0)).1.relations.length =
      exState.relations.length :=
  ⟨by decide,
   (claim1_add_relation_missing_endpoint exState 5 "a" "knows" "zz" 0
      (Or.inr (by decide))).1,
   (claim1_add_relation_missing_endpoint exState 5 "a" "knows" "zz" 0
      (Or.inr (by decide))).2.2⟩

/-- C7: with both endpoints present, `kg_add_relation` succeeds and
appends exactly one record (relation count +1); issuing the identical
call twice appends two records — identical `(from, relation, to)` tuples
are kept as distinct list entries, never deduplicated. -/
theorem claim7_add_relation_appends (st : KnowledgeGraph P) (now now2 : Nat)
    (f r t : String) (p : P)
    (hf : (lookupEnt f st.entities).isSome)
    (ht : (lookupEnt t st.entities).isSome) :
    (callTool st now (ToolCall.addRelation f r t p)).2 =
      ToolResult.addedRelation f r t ∧
    (callTool st now (ToolCall.addRelation f r t p)).1.relations =
      st.relations ++ [⟨f, r, t, p, now⟩] ∧
    (callTool st now (ToolCall.addRelation f r t p)).1.relations.length =
      st.relations.length + 1 ∧
    (applyCalls st [(now, ToolCall.addRelation f r t p),
        (now2, ToolCall.addRelation f r t p)]).relations =
      st.relations ++ [⟨f, r, t, p, now⟩, ⟨f, r, t, p, now2⟩] := by
  have hf2 : (lookupEnt f st.entities).isNone = false := by
    cases hopt : lookupEnt f st.entities
    · rw [hopt] at hf; simp at hf
    · rfl
  have ht2 : (lookupEnt t st.entities).isNone = false := by
    cases hopt : lookupEnt t st.entities
    · rw [hopt] at ht; simp at ht
    · rfl
  refine ⟨by simp [callTool, hf2, ht2], by simp [callTool, hf2, ht2],
    by simp [callTool, hf2, ht2], ?_⟩
  simp [applyCalls, callTool, hf2, ht2]

/-- Witness for C7: relating `a` to `b` twice in `exState` appends two
distinct records. -/
theorem claim7_witness :
    (lookupEnt "a" exState.entities).isSome = true ∧
    (lookupEnt "b" exState.entities).isSome = true ∧
    (applyCalls exState [(5, ToolCall.addRelation "a" "knows" "b" 0),
        (6, ToolCall.addRelation "a" "knows" "b" 0)]).relations =
      exState.relations ++ [⟨"a", "knows", "b", 0, 5⟩, ⟨"a", "knows", "b", 0, 6⟩] :=
  ⟨by decide, by decide,
   (claim7_add_relation_appends exState 5 6 "a" "knows" "b" 0
      (by decide) (by decide)).2.2.2⟩

/-- C10: the `kg_query`, `kg_get_neighbors` and `kg_stats` branches never
mutate the graph — the state after any such call is the state before it;
only `kg_add_entity` and `kg_add_relation` change state. -/
theorem claim10_read_ops_pure (st : KnowledgeGraph P) (now : Nat)
    (q qt : String) (limit : Int) (e : String) (d : Int) :
    (callTool st now (ToolCall.query q qt limit)).1 = st ∧
    (callTool st now (ToolCall.getNeighbors e d)).1 = st ∧
    (callTool st now ToolCall.stats).1 = st :=
  ⟨callTool_query_state st now q qt limit, callTool_neighbors_state st now e d,
    callTool_stats_state st now⟩

/-- C4 counterexample: the source never validates `depth`.  With the
existing entity `a` and `depth = -1`, `kg_get_neighbors` returns a
normal (non-error) response with an empty neighbor list — `range(-1)`
simply runs zero rounds — instead of the `InvalidArgument` failure the
claim requires. -/
theorem claim4_counterexample :
    (callTool exState 0 (ToolCall.getNeighbors "a" (-1))).2 =
      ToolResult.neighborsResult "a" (-1) ∅ ∧
    ToolResult.isError (callTool exState 0 (ToolCall.getNeighbors "a" (-1))).2 =
      false := by
  decide

/-- C4 amended: for every existing start entity and negative depth, the
neighbors operation does not fail — it returns the normal response with
an empty neighbor list, exactly as `depth = 0` would. -/
theorem claim4_negative_depth_empty (st : KnowledgeGraph P) (now : Nat)
    (e : String) (d : Int) (hd : d < 0)
    (he : (lookupEnt e st.entities).isSome) :
    (callTool st now (ToolCall.getNeighbors e d)).2 =
      ToolResult.neighborsResult e d ∅ ∧
    ToolResult.isError (callTool st now (ToolCall.getNeighbors e d)).2 = false := by
  have he2 : (lookupEnt e st.entities).isNone = false := by
    cases hopt : lookupEnt e st.entities
    · rw [hopt] at he; simp at he
    · rfl
  have h0 : d.toNat = 0 := by omega
  constructor
  · simp [callTool, he2, kgNeighborsSet, h0, bfsLoop]
  · simp [callTool, he2, ToolResult.isError]

/-- Witness for the amended C4 at `depth = -1` on `exState2`. -/
theorem claim4_witness :
    ((-1 : Int) < 0) ∧ (lookupEnt "a" exState2.entities).isSome = true ∧
    (callTool exState2 0 (ToolCall.getNeighbors "a" (-1))).2 =
      ToolResult.neighborsResult "a" (-1) ∅ :=
  ⟨by decide, by decide,
   (claim4_negative_depth_empty exState2 0 "a" (-1) (by decide) (by decide)).1⟩

/-- C5 counterexample: with `limit = 0` the entity query on `exState`
(whose entity `a` matches the query `a`) returns one result, not an
empty sequence: the source appends the match first and only then checks
`len(results) >= limit`. -/
theorem claim5_counterexample :
    kgQuery exState "a" "entity" 0 = [QueryResult.entityHit "a" "person" 7] ∧
    kgQuery exState "a" "entity" 0 ≠ [] ∧
    (callTool exState 0 (ToolCall.query "a" "entity" 0)).2 =
      ToolResult.queryResults "a" [QueryResult.entityHit "a" "person" 7] := by
  decide

theorem collectEntityHits_first (ql : String) (limit : Int) (h : limit ≤ 1)
    (es : List (String × EntityData P)) :
    collectEntityHits ql limit es [] =
      match es.find? (fun p => entityMatches ql p.1 p.2) with
      | none => []
      | some p => [QueryResult.entityHit p.1 p.2.type p.2.properties] := by
  induction es with
  | nil => simp [collectEntityHits]
  | cons hd tl ih =>
    obtain ⟨id, d⟩ := hd
    by_cases h1 : entityMatches ql id d
    · rw [List.find?_cons]
      simp only [collectEntityHits, h1, if_true, List.nil_append, List.length_cons,
        List.length_nil]
      rw [if_pos (by exact_mod_cast h)]
    · have h1b : entityMatches ql id d = false := by simpa using h1
      rw [List.find?_cons]
      simp only [collectEntityHits, h1b, Bool.false_eq_true, if_false]
      exact ih

theorem collectRelationHits_first (ql : String) (limit : Int) (h : limit ≤ 1)
    (rs : List (RelationData P)) :
    collectRelationHits ql limit rs [] =
      match rs.find? (fun r => strHasSub ql (strLower r.relation)) with
      | none => []
      | some r => [QueryResult.relationHit r.frm r.relation r.toE] := by
  induction rs with
  | nil => simp [collectRelationHits]
  | cons r tl ih =>
    by_cases h1 : strHasSub ql (strLower r.relation)
    · rw [List.find?_cons]
      simp only [collectRelationHits, h1, if_true, List.nil_append, List.length_cons,
        List.length_nil]
      rw [if_pos (by exact_mod_cast h)]
    · have h1b : strHasSub ql (strLower r.relation) = false := by simpa using h1
      rw [List.find?_cons]
      simp only [collectRelationHits, h1b, Bool.false_eq_true, if_false]
      exact ih

/-- C5 amended: with `limit ≤ 0`, `kg_query` returns the empty sequence
when nothing matches and otherwise exactly the first match in collection
order (so at most one result): the loop appends a match before testing
`len(results) >= limit`, so the very first match already triggers the
break. -/
theorem claim5_limit_nonpositive (st : KnowledgeGraph P) (now : Nat)
    (q qt : String) (limit : Int) (h : limit ≤ 0) :
    kgQuery st q qt limit =
      (if qt = "entity" then
        match st.entities.find? (fun p => entityMatches (strLower q) p.1 p.2) with
        | none => []
        | some p => [QueryResult.entityHit p.1 p.2.type p.2.properties]
      else if qt = "relation" then
        match st.relations.find? (fun r => strHasSub (strLower q) (strLower r.relation)) with
        | none => []
        | some r => [QueryResult.relationHit r.frm r.relation r.toE]
      else []) ∧
    (callTool st now (ToolCall.query q qt limit)).2 =
      ToolResult.queryResults q (kgQuery st q qt limit) := by
  refine ⟨?_, rfl⟩
  unfold kgQuery
  split_ifs with h1 h2
  · exact collectEntityHits_first (strLower q) limit (by omega) st.entities
  · exact collectRelationHits_first (strLower q) limit (by omega) st.relations
  · rfl

/-- Witness for the amended C5 at `limit = 0` on `exState`, whose first
(and only) matching entity for the query `a` is `a` itself. -/
theorem claim5_witness :
    ((0 : Int) ≤ 0) ∧
    kgQuery exState "a" "entity" 0 =
      (if "entity" = "entity" then
        match exState.entities.find? (fun p => entityMatches (strLower "a") p.1 p.2) with
        | none => []
        | some p => [QueryResult.entityHit p.1 p.2.type p.2.properties]
      else if "entity" = "relation" then
        match exState.relations.find?
            (fun r => strHasSub (strLower "a") (strLower r.relation)) with
        | none => []
        | some r => [QueryResult.relationHit r.frm r.relation r.toE]
      else []) :=
  ⟨by decide, (claim5_limit_nonpositive exState 0 "a" "entity" 0 (by decide)).1⟩

theorem mem_kgNeighborsSet_one (st : KnowledgeGraph P) (e : String)
    (pr : String × String) :
    pr ∈ kgNeighborsSet st e 1 ↔
      pr.1 ≠ e ∧ adjacent st e pr.1 ∧
        ∃ d, lookupEnt pr.1 st.entities = some d ∧ pr.2 = d.type := by
  have hvis : bfsLoop st.relations ((1 : Int)).toNat {e} ∅ =
      levelExpand {e} st.relations := by
    simp [bfsLoop]
  simp only [kgNeighborsSet, hvis, Finset.mem_image, Finset.mem_filter,
    Finset.mem_erase]
  constructor
  · rintro ⟨n, ⟨⟨hne, hmem⟩, hsome⟩, heq⟩
    obtain ⟨d, hd⟩ := Option.isSome_iff_exists.mp hsome
    subst heq
    refine ⟨hne, ?_, d, hd, by simp [typeOfId, hd]⟩
    rcases (mem_levelExpand n {e} st.relations).mp hmem with ⟨r, hr, hor⟩
    rcases hor with ⟨h1, h2⟩ | ⟨h1, h2⟩
    · exact ⟨r, hr, Or.inl ⟨Finset.mem_singleton.mp h1, h2.symm⟩⟩
    · exact ⟨r, hr, Or.inr ⟨h2.symm, Finset.mem_singleton.mp h1⟩⟩
  · rintro ⟨hne, ⟨r, hr, hor⟩, d, hd, hty⟩
    refine ⟨pr.1, ⟨⟨hne, ?_⟩, by simp [hd]⟩, ?_⟩
    · apply (mem_levelExpand pr.1 {e} st.relations).mpr
      rcases hor with ⟨h1, h2⟩ | ⟨h1, h2⟩
      · exact ⟨r, hr, Or.inl ⟨by simp [h1], h2.symm⟩⟩
      · exact ⟨r, hr, Or.inr ⟨by simp [h2], h1.symm⟩⟩
    · obtain ⟨p1, p2⟩ := pr
      simp only at hty hd ⊢
      simp [typeOfId, hd, hty]

/-- C3: for an existing start entity `e` of a referentially-closed state
(every reachable state is such, see C9), `kg_get_neighbors(e, 1)` returns
the duplicate-free set holding exactly the ids `n ≠ e` linked to `e` by
some stored relation in either direction, each paired with that entity's
stored type. -/
theorem claim3_neighbors_depth_one (st : KnowledgeGraph P) (now : Nat)
    (e : String) (hc : Closed st) (he : (lookupEnt e st.entities).isSome) :
    (callTool st now (ToolCall.getNeighbors e 1)).2 =
      ToolResult.neighborsResult e 1 (kgNeighborsSet st e 1) ∧
    (∀ n : String, (∃ ty, (n, ty) ∈ kgNeighborsSet st e 1) ↔
      (n ≠ e ∧ adjacent st e n)) ∧
    ∀ n ty, (n, ty) ∈ kgNeighborsSet st e 1 →
      ∃ d, lookupEnt n st.entities = some d ∧ ty = d.type := by
  have he2 : (lookupEnt e st.entities).isNone = false := by
    cases hopt : lookupEnt e st.entities
    · rw [hopt] at he; simp at he
    · rfl
  refine ⟨by simp [callTool, he2], ?_, ?_⟩
  · intro n
    constructor
    · rintro ⟨ty, hmem⟩
      have h := (mem_kgNeighborsSet_one st e (n, ty)).mp hmem
      exact ⟨h.1, h.2.1⟩
    · rintro ⟨hne, hadj⟩
      obtain ⟨r, hr, hor⟩ := hadj
      have hsome : (lookupEnt n st.entities).isSome := by
        rcases hor with ⟨h1, h2⟩ | ⟨h1, h2⟩
        · have h3 := (hc r hr).2; rwa [h2] at h3
        · have h3 := (hc r hr).1; rwa [h1] at h3
      obtain ⟨d, hd⟩ := Option.isSome_iff_exists.mp hsome
      exact ⟨d.type, (mem_kgNeighborsSet_one st e (n, d.type)).mpr
        ⟨hne, ⟨r, hr, hor⟩, d, hd, rfl⟩⟩
  · intro n ty hmem
    exact ((mem_kgNeighborsSet_one st e (n, ty)).mp hmem).2.2

/-- Witness for C3 on `exState2` (`a --knows--> b`): the response is the
normal neighbors response carrying `kgNeighborsSet exState2 "a" 1`. -/
theorem claim3_witness :
    Closed exState2 ∧ (lookupEnt "a" exState2.entities).isSome = true ∧
    (callTool exState2 0 (ToolCall.getNeighbors "a" 1)).2 =
      ToolResult.neighborsResult "a" 1 (kgNeighborsSet exState2 "a" 1) :=
  ⟨by decide, by decide,
   (claim3_neighbors_depth_one exState2 0 "a" (by decide) (by decide)).1⟩

/-- C6: for an existing start entity and integer `k ≥ 1`, the id set
returned by `kg_get_neighbors(e, k)` contains the id set returned for
depth `k - 1`, and depth 0 yields the empty set: each BFS round only
adds to the accumulated neighbor set, and the first `k - 1` rounds of
the depth-`k` run coincide with the depth-`(k-1)` run. -/
theorem claim6_neighbors_monotone (st : KnowledgeGraph P) (now : Nat)
    (e : String) (k : Int) (hk : 1 ≤ k)
    (he : (lookupEnt e st.entities).isSome) :
    (kgNeighborsSet st e (k - 1)).image Prod.fst ⊆
      (kgNeighborsSet st e k).image Prod.fst ∧
    kgNeighborsSet st e 0 = ∅ ∧
    (callTool st now (ToolCall.getNeighbors e k)).2 =
      ToolResult.neighborsResult e k (kgNeighborsSet st e k) := by
  have he2 : (lookupEnt e st.entities).isNone = false := by
    cases hopt : lookupEnt e st.entities
    · rw [hopt] at he; simp at he
    · rfl
  refine ⟨?_, ?_, by simp [callTool, he2]⟩
  · have hkk : k.toNat = (k - 1).toNat + 1 := by omega
    have hsub : bfsLoop st.relations (k - 1).toNat {e} ∅ ⊆
        bfsLoop st.relations k.toNat {e} ∅ := by
      rw [hkk]
      exact bfsLoop_subset_succ st.relations _ _ _
    have hpairs : kgNeighborsSet st e (k - 1) ⊆ kgNeighborsSet st e k := by
      simp only [kgNeighborsSet]
      apply Finset.image_subset_image
      apply Finset.filter_subset_filter
      exact Finset.erase_subset_erase e hsub
    exact Finset.image_subset_image hpairs
  · simp [kgNeighborsSet, bfsLoop]

/-- Witness for C6 at `k = 2` on `exState2`. -/
theorem claim6_witness :
    (1 ≤ (2 : Int)) ∧ (lookupEnt "a" exState2.entities).isSome = true ∧
    (kgNeighborsSet exState2 "a" (2 - 1)).image Prod.fst ⊆
      (kgNeighborsSet exState2 "a" 2).image Prod.fst :=
  ⟨by decide, by decide,
   (claim6_neighbors_monotone exState2 0 "a" 2 (by decide) (by decide)).1⟩

/-- C8: on every state reachable from the empty graph, `kg_stats`
reports: `entities_count` = the number of distinct ids ever passed to
`kg_add_entity` (re-adds counted once), `relations_count` = the number
of successful `kg_add_relation` calls, an entity-type histogram mapping
each type to the number of stored entities whose current record bears
it, and a relation-label histogram mapping each label to the number of
stored relations bearing it. -/
theorem claim8_stats (calls : List (Nat × ToolCall P)) :
    (statsOf (applyCalls (emptyGraph : KnowledgeGraph P) calls)).entities_count =
      (addedIds calls).card ∧
    (statsOf (applyCalls (emptyGraph : KnowledgeGraph P) calls)).relations_count =
      countSucc emptyGraph calls ∧
    (∀ t, histLookup t
        (statsOf (applyCalls (emptyGraph : KnowledgeGraph P) calls)).entity_types =
      (applyCalls (emptyGraph : KnowledgeGraph P) calls).entities.countP
        (fun p => p.2.type == t)) ∧
    (∀ l, histLookup l
        (statsOf (applyCalls (emptyGraph : KnowledgeGraph P) calls)).relation_types =
      (applyCalls (emptyGraph : KnowledgeGraph P) calls).relations.countP
        (fun r => r.relation == l)) := by
  refine ⟨?_, ?_, ?_, ?_⟩
  · have h1 : keyset (applyCalls (emptyGraph : KnowledgeGraph P) calls).entities
        = addedIds calls := by
      rw [keyset_applyCalls]
      simp [emptyGraph, keyset]
    have h2 := nodup_keys_applyCalls calls (emptyGraph : KnowledgeGraph P)
      (by simp [emptyGraph])
    show (applyCalls (emptyGraph : KnowledgeGraph P) calls).entities.length = _
    rw [← h1]
    unfold keyset
    rw [List.toFinset_card_of_nodup h2, List.length_map]
  · show (applyCalls (emptyGraph : KnowledgeGraph P) calls).relations.length = _
    rw [relations_length_applyCalls]
    simp [emptyGraph]
  · intro t
    exact histLookup_entityTypesHist t _
  · intro l
    exact histLookup_relationTypesHist l _

/-- C9: every state reachable from the empty graph by tool calls is
referentially closed — each stored relation's endpoints resolve in the
entity dict — so the defensive `if neighbor in entities` filter inside
`kg_get_neighbors` never drops anything on a reachable state. -/
theorem claim9_reachable_closed (calls : List (Nat × ToolCall P)) :
    Closed (applyCalls (emptyGraph : KnowledgeGraph P) calls) ∧
    ∀ (e : String) (depth : Int),
      ((bfsLoop (applyCalls (emptyGraph : KnowledgeGraph P) calls).relations
            depth.toNat {e} ∅).erase e).filter
          (fun n =>
            (lookupEnt n
              (applyCalls (emptyGraph : KnowledgeGraph P) calls).entities).isSome) =
        (bfsLoop (applyCalls (emptyGraph : KnowledgeGraph P) calls).relations
          depth.toNat {e} ∅).erase e := by
  have hc := closed_applyCalls calls (emptyGraph : KnowledgeGraph P) closed_emptyGraph
  refine ⟨hc, ?_⟩
  intro e depth
  apply Finset.filter_true_of_mem
  intro n hn
  have hn2 := Finset.mem_of_mem_erase hn
  rcases mem_bfsLoop_endpoint _ _ _ _ n hn2 with h | ⟨r, hr, h⟩
  · simp at h
  · rcases h with rfl | rfl
    · exact (hc r hr).1
    · exact (hc r hr).2

/-- Witness for C9 on a small concrete trace. -/
theorem claim9_witness :
    Closed (applyCalls (emptyGraph : KnowledgeGraph Nat)
      [(0, ToolCall.addEntity "a" "person" 7), (1, ToolCall.addEntity "b" "concept" 8),
       (2, ToolCall.addRelation "a" "knows" "b" 9)]) :=
  (claim9_reachable_closed
    [(0, ToolCall.addEntity "a" "person" 7), (1, ToolCall.addEntity "b" "concept" 8),
     (2, ToolCall.addRelation "a" "knows" "b" 9)]).1

end KG
